import Mathlib

/-!
Shallow embedding of the recovery session engine of `recovery.c`
(Android recovery port for the Samsung i5700, LeshaK build).

Byte strings are modelled as `List Nat` (one entry per byte).  C string
values never contain the byte 0; raw record buffers may.  The
`bootloader_message` struct itself is declared in `bootloader.h`, which is
not part of the repository, so its field capacities are taken as
parameters (`ccap` for `command`, `rcap` for `recovery`), per the spec's
"sizes are implementation-fixed capacities".

The embedded functions follow the source line by line:
  - `get_args`  : recovery.c lines 159-219,
  - `finish_recovery` : recovery.c lines 226-273,
  - `erase_root` dispatch in `main` : recovery.c lines 1409-1421.
-/

/-- ASCII bytes of the string "recovery" (the mandatory first line of the
BCB `recovery` field). -/
def wRecovery : List Nat := [114, 101, 99, 111, 118, 101, 114, 121]

/-- ASCII bytes of the string "boot-recovery" (written into the BCB
`command` field by `get_args`). -/
def wBootRecovery : List Nat := [98, 111, 111, 116, 45, 114, 101, 99, 111, 118, 101, 114, 121]

/-- ASCII bytes of the root name "DATA:". -/
def wDATA : List Nat := [68, 65, 84, 65, 58]

/-- ASCII bytes of the root name "CACHE:". -/
def wCACHE : List Nat := [67, 65, 67, 72, 69, 58]

/-- recovery.c line 121: `static const int MAX_ARGS = 100;` -/
def MAX_ARGS : Nat := 100

/-- recovery.c line 120: `static const int MAX_ARG_LENGTH = 4096;` -/
def MAX_ARG_LENGTH : Nat := 4096

/-- Modelled from the spec: the `bootloader_message` struct of
`bootloader.h` (not in the repository).  Fields are the raw byte contents
of the fixed-capacity buffers `command`, `status`, `recovery`; a list
shorter than the capacity stands for a buffer padded with 0 bytes. -/
structure Bcb where
  command : List Nat
  status : List Nat
  recovery : List Nat
deriving DecidableEq, Repr

/-- `strlcat(dst, src, cap)` at the level of C-string values: the result
holds at most `cap - 1` bytes. `strlcpy(dst, src, cap)` is `strlcat cap [] src`. -/
def strlcat (cap : Nat) (dst src : List Nat) : List Nat :=
  (dst ++ src).take (cap - 1)

/-- The C-string value of a raw record field of capacity `cap` after the
forced termination `buf[cap-1] = 0` (recovery.c line 175): the bytes
before the first 0 among the first `cap - 1` raw bytes. -/
def cstrField (cap : Nat) (raw : List Nat) : List Nat :=
  (raw.take (cap - 1)).takeWhile (fun c => ¬ c = 0)

/-- Fuel-driven worker for `tokenize`; fuel bounds the number of bytes
consumed, so `s.length` fuel always suffices. -/
def tokenizeAux (delims : List Nat) : Nat → List Nat → List (List Nat)
  | 0, _ => []
  | _ + 1, [] => []
  | fuel + 1, c :: t =>
    if c ∈ delims then tokenizeAux delims fuel t
    else (c :: t.takeWhile (fun d => ¬ d ∈ delims)) ::
      tokenizeAux delims fuel (t.dropWhile (fun d => ¬ d ∈ delims))

/-- The sequence of tokens produced by repeated `strtok(s, delims)`:
maximal runs of non-delimiter bytes, empty runs skipped. -/
def tokenize (delims : List Nat) (s : List Nat) : List (List Nat) :=
  tokenizeAux delims s.length s

/-- The first token of `strtok(s, delims)`, `none` when `s` is all
delimiters (in which case `strtok` returns NULL). -/
def firstTok (delims : List Nat) (s : List Nat) : Option (List Nat) :=
  match s.dropWhile (fun c => c ∈ delims) with
  | [] => none
  | c :: t => some (c :: t.takeWhile (fun d => ¬ d ∈ delims))

/-- How many bytes one `fgets(buf, n, fp)` call consumes from a stream
with remaining bytes `s`: up to and including the first newline among the
first `n - 1` bytes, else `n - 1` bytes (or all of a shorter stream). -/
def chunkLen (n : Nat) (s : List Nat) : Nat :=
  if (s.take (n - 1)).findIdx (fun c => c = 10) < (s.take (n - 1)).length
  then (s.take (n - 1)).findIdx (fun c => c = 10) + 1
  else n - 1

/-- `fgets(buf, n, fp)` on a stream with remaining bytes `s`: reads up to
`n - 1` bytes, stopping after the first newline; returns the chunk read
and the rest of the stream, or `none` at end of file. -/
def fgets (n : Nat) (s : List Nat) : Option (List Nat × List Nat) :=
  match s with
  | [] => none
  | _ :: _ => some (s.take (chunkLen n s), s.drop (chunkLen n s))

/-- The command-file reading loop of `get_args` (recovery.c lines
198-202): up to `fuel` iterations of `fgets` into a `MAX_ARG_LENGTH`
buffer followed by `strdup(strtok(buf, "\r\n"))`.  A line holding only
`\r`/`\n` bytes makes `strtok` return NULL and `strdup(NULL)` dereference
a null pointer; that crash is modelled as `none`. -/
def readCmdFile (fuel : Nat) (s : List Nat) : Option (List (List Nat)) :=
  match fuel with
  | 0 => some []
  | k + 1 =>
    match fgets MAX_ARG_LENGTH s with
    | none => some []
    | some (chunk, rest) =>
      match firstTok [13, 10] (chunk.takeWhile (fun c => ¬ c = 0)) with
      | none => none
      | some a => (readCmdFile k rest).map (fun ls => a :: ls)

/-- The write-back serialization of recovery.c lines 212-217:
`strlcpy(boot.recovery, "recovery\n", rcap)` followed, for each argument
after the placeholder, by `strlcat(arg)` and `strlcat("\n")`. -/
def serializeRecovery (rcap : Nat) (tailArgs : List (List Nat)) : List Nat :=
  tailArgs.foldl (fun d a => strlcat rcap (strlcat rcap d a) [10])
    ((wRecovery ++ [10]).take (rcap - 1))

/-- The BCB branch of `get_args` (recovery.c lines 174-188): if the first
`strtok(boot.recovery, "\n")` token is exactly "recovery", the following
tokens (at most `MAX_ARGS - 1` of them) become the arguments; otherwise
the incoming argument list is kept. -/
def parseBcbArgs (rcap : Nat) (args0 : List (List Nat)) (raw : List Nat) : List (List Nat) :=
  match tokenize [10] (cstrField rcap raw) with
  | [] => args0
  | t :: rest => if t = wRecovery then t :: rest.take (MAX_ARGS - 1) else args0

/-- `get_args` (recovery.c lines 159-219).  Inputs: the invocation
argument list `args0` (entry 0 is the program-name placeholder), the BCB
as read by `get_bootloader_message` (a failed read is the zeroed record
`⟨[], [], []⟩`), and the command file: `none` when
`fopen_root_path(COMMAND_FILE, "r")` fails (absent file or unmountable
cache), otherwise its raw byte stream.  Output: `none` models the
`strdup(NULL)` crash; otherwise the resolved argument list together with
the record passed to `set_bootloader_message` at line 218 (the record is
always written back on the non-crashing path). -/
def resolveArgs (rcap : Nat) (args0 : List (List Nat)) (boot : Bcb)
    (cmdfile : Option (List Nat)) : Option (List (List Nat)) :=
  let args1 :=
    if args0.length ≤ 1 then parseBcbArgs rcap args0 boot.recovery else args0
  if args1.length ≤ 1 then
    match cmdfile with
    | none => some args1
    | some f => (readCmdFile (MAX_ARGS - 1) f).map (fun ls => args1.headD [] :: ls)
  else some args1

/-- The record committed by the write-back at recovery.c lines 211-218:
`command` is `strlcpy`-ed to "boot-recovery", `status` carried through
unchanged, `recovery` re-serialized from the resolved arguments. -/
def writtenBcb (ccap rcap : Nat) (status : List Nat) (as : List (List Nat)) : Bcb :=
  { command := wBootRecovery.take (ccap - 1)
    status := status
    recovery := serializeRecovery rcap as.tail }

def get_args (ccap rcap : Nat) (args0 : List (List Nat)) (boot : Bcb)
    (cmdfile : Option (List Nat)) : Option (List (List Nat) × Bcb) :=
  (resolveArgs rcap args0 boot cmdfile).map (fun as =>
    (as, writtenBcb ccap rcap boot.status as))

/-- Modelled from the spec: the process-external state touched by
`finish_recovery` — the files on the cache volume (intent report, the
persistent log, the command file), the temporary log `/tmp/recovery.log`
with the process-global copy offset `tmplog_offset`, the BCB, and a flag
`cacheOk` saying whether the cache volume can be mounted (when it cannot,
each cache-file step degrades exactly as the source's error branches do). -/
structure World where
  cacheOk : Bool
  intentFile : Option (List Nat)
  logFile : List Nat
  tmplog : List Nat
  tmplogOffset : Nat
  commandFile : Option (List Nat)
  boot : Bcb
deriving DecidableEq, Repr

/-- `finish_recovery(send_intent)` (recovery.c lines 226-273): write the
intent file, append the unread suffix of the temporary log to the
persistent log advancing `tmplog_offset`, zero the BCB, and unlink the
command file ignoring ENOENT.  The returned Bool reports whether the
command-file removal step succeeded (false exactly when the `LOGW` branch
at line 269 fires, i.e. the cache volume cannot be mounted). -/
def finish_recovery (intent : Option (List Nat)) (w : World) : World × Bool :=
  let w1 :=
    match intent with
    | none => w
    | some s => if w.cacheOk then { w with intentFile := some s } else w
  let w2 :=
    if w1.cacheOk then
      { w1 with logFile := w1.logFile ++ w1.tmplog.drop w1.tmplogOffset
                tmplogOffset := max w1.tmplogOffset w1.tmplog.length }
    else w1
  let w3 := { w2 with boot := ⟨[], [], []⟩ }
  let w4 := if w3.cacheOk then { w3 with commandFile := none } else w3
  (w4, w3.cacheOk)

/-- The operation dispatch of `main` (recovery.c lines 1409-1418), given
the parsed options and the outcomes of the external collaborators
(`install_package`, `format_root_device` via `erase_root`).  Returns the
session success flag (`status == INSTALL_SUCCESS`) and the ordered trace
of roots passed to `erase_root`. -/
def mainDispatch (pkg : Option (List Nat)) (wd wc : Bool) (installOk : Bool)
    (eraseOk : List Nat → Bool) : Bool × List (List Nat) :=
  match pkg with
  | some _ => (installOk, [])
  | none =>
    if wd || wc then
      let r1 := if wd then (eraseOk wDATA, [wDATA]) else (true, [])
      let r2 := if wc then (eraseOk wCACHE, [wCACHE]) else (true, [])
      (r1.1 && r2.1, r1.2 ++ r2.2)
    else (false, [])

/-- The two post-dispatch steps of `main` (recovery.c lines 1420-1421). -/
inductive NextStep where
  | prompting : NextStep
  | rebooting : NextStep
deriving DecidableEq, Repr

/-- recovery.c lines 1420-1421: on a non-success status the error
background is shown and `prompt_and_wait()` is entered before any reboot;
on success the loop proceeds straight to finalize-and-reboot.  Returns
(error icon shown, next control state). -/
def routeAfter (ok : Bool) : Bool × NextStep :=
  (!ok, if ok then NextStep.rebooting else NextStep.prompting)

/-! ### Helper lemmas about the list primitives -/

theorem length_dropWhile_le (p : Nat → Bool) (l : List Nat) :
    (l.dropWhile p).length ≤ l.length :=
  (List.dropWhile_sublist p).length_le

theorem takeWhile_all (p : Nat → Bool) (l : List Nat) (h : ∀ c ∈ l, p c = true) :
    l.takeWhile p = l := by
  induction l with
  | nil => rfl
  | cons c t ih =>
    rw [List.takeWhile_cons, h c (List.mem_cons_self c t)]
    exact congrArg (c :: ·) (ih fun x hx => h x (List.mem_cons_of_mem c hx))

theorem takeWhile_all_append (p : Nat → Bool) (t : List Nat) (d : Nat) (rest : List Nat)
    (h : ∀ c ∈ t, p c = true) (hd : p d = false) :
    (t ++ d :: rest).takeWhile p = t := by
  induction t with
  | nil => simpa [List.takeWhile_cons] using hd
  | cons c t' ih =>
    rw [List.cons_append, List.takeWhile_cons, h c (List.mem_cons_self c t')]
    exact congrArg (c :: ·) (ih fun x hx => h x (List.mem_cons_of_mem c hx))

theorem dropWhile_all_append (p : Nat → Bool) (t : List Nat) (d : Nat) (rest : List Nat)
    (h : ∀ c ∈ t, p c = true) (hd : p d = false) :
    (t ++ d :: rest).dropWhile p = d :: rest := by
  induction t with
  | nil => simp [List.dropWhile_cons, hd]
  | cons c t' ih =>
    rw [List.cons_append, List.dropWhile_cons, h c (List.mem_cons_self c t')]
    exact ih fun x hx => h x (List.mem_cons_of_mem c hx)

theorem tokenizeAux_nil (delims : List Nat) (k : Nat) : tokenizeAux delims k [] = [] := by
  cases k <;> rfl

theorem tokenizeAux_congr (delims : List Nat) :
    ∀ k₁ k₂ s, s.length ≤ k₁ → s.length ≤ k₂ →
      tokenizeAux delims k₁ s = tokenizeAux delims k₂ s := by
  intro k₁
  induction k₁ with
  | zero =>
    intro k₂ s h1 _
    rw [List.eq_nil_of_length_eq_zero (Nat.le_zero.mp h1), tokenizeAux_nil, tokenizeAux_nil]
  | succ m ih =>
    intro k₂ s h1 h2
    match s, k₂ with
    | [], _ => rw [tokenizeAux_nil, tokenizeAux_nil]
    | c :: t, 0 => exact absurd h2 (by simp)
    | c :: t, n + 1 =>
      show tokenizeAux delims (m + 1) (c :: t) = tokenizeAux delims (n + 1) (c :: t)
      rw [tokenizeAux, tokenizeAux]
      by_cases hc : c ∈ delims
      · rw [if_pos hc, if_pos hc]
        exact ih n t (by simpa using h1) (by simpa using h2)
      · rw [if_neg hc, if_neg hc]
        refine congrArg _ (ih n _ ?_ ?_)
        · exact le_trans (length_dropWhile_le _ t) (by simpa using h1)
        · exact le_trans (length_dropWhile_le _ t) (by simpa using h2)

theorem tokenize_eq_aux (delims : List Nat) (k : Nat) (s : List Nat) (h : s.length ≤ k) :
    tokenizeAux delims k s = tokenize delims s :=
  tokenizeAux_congr delims k s.length s h le_rfl

theorem tokenize_cons_mem (delims : List Nat) (c : Nat) (s : List Nat) (h : c ∈ delims) :
    tokenize delims (c :: s) = tokenize delims s := by
  show tokenizeAux delims (s.length + 1) (c :: s) = tokenize delims s
  rw [tokenizeAux, if_pos h]
  rfl

theorem tokenize_cons_not_mem (delims : List Nat) (c : Nat) (s : List Nat) (h : ¬ c ∈ delims) :
    tokenize delims (c :: s) =
      (c :: s.takeWhile (fun d => ¬ d ∈ delims)) ::
        tokenize delims (s.dropWhile (fun d => ¬ d ∈ delims)) := by
  show tokenizeAux delims (s.length + 1) (c :: s) = _
  rw [tokenizeAux, if_neg h]
  exact congrArg _ (tokenize_eq_aux delims s.length _ (length_dropWhile_le _ s))

theorem tokenize_token (delims : List Nat) (t : List Nat) (d : Nat) (rest : List Nat)
    (ht : ¬ t = []) (hall : ∀ c ∈ t, ¬ c ∈ delims) (hd : d ∈ delims) :
    tokenize delims (t ++ d :: rest) = t :: tokenize delims rest := by
  match t with
  | [] => exact absurd rfl ht
  | c :: t' =>
    rw [List.cons_append,
      tokenize_cons_not_mem delims c _ (hall c (List.mem_cons_self c t')),
      takeWhile_all_append _ t' d rest
        (fun x hx => by simpa using hall x (List.mem_cons_of_mem c hx))
        (by simpa using hd),
      dropWhile_all_append _ t' d rest
        (fun x hx => by simpa using hall x (List.mem_cons_of_mem c hx))
        (by simpa using hd),
      tokenize_cons_mem delims d rest hd]

theorem tokenize_flatten (args : List (List Nat))
    (hne : ∀ a ∈ args, ¬ a = []) (h10 : ∀ a ∈ args, ¬ (10 : Nat) ∈ a) :
    tokenize [10] ((args.map (fun a => a ++ [10])).flatten) = args := by
  induction args with
  | nil => rfl
  | cons a args' ih =>
    rw [List.map_cons, List.flatten_cons, List.append_assoc, List.singleton_append,
      tokenize_token [10] a 10 _ (hne a (List.mem_cons_self a args'))
        (fun c hc => by
          have := h10 a (List.mem_cons_self a args')
          simp only [List.mem_singleton]
          intro he; exact this (he ▸ hc))
        (List.mem_singleton.mpr rfl)]
    exact congrArg _ (ih (fun x hx => hne x (List.mem_cons_of_mem a hx))
      (fun x hx => h10 x (List.mem_cons_of_mem a hx)))

/-! ### Helper lemmas about serialization and resolution -/

theorem foldl_strlcat (rcap : Nat) :
    ∀ (args : List (List Nat)) (d : List Nat),
      (d ++ (args.map (fun a => a ++ [10])).flatten).length ≤ rcap - 1 →
      args.foldl (fun d a => strlcat rcap (strlcat rcap d a) [10]) d =
        d ++ (args.map (fun a => a ++ [10])).flatten := by
  intro args
  induction args with
  | nil => intro d _; simp
  | cons a args' ih =>
    intro d h
    simp only [List.map_cons, List.flatten_cons, List.length_append, List.length_cons,
      List.length_nil] at h
    have h1 : (d ++ a).length ≤ rcap - 1 := by
      simp only [List.length_append]; omega
    have h2 : (d ++ a ++ [10]).length ≤ rcap - 1 := by
      simp only [List.length_append, List.length_cons, List.length_nil]; omega
    have h3 : ((d ++ a ++ [10]) ++ (args'.map (fun a => a ++ [10])).flatten).length
        ≤ rcap - 1 := by
      simp only [List.length_append, List.length_cons, List.length_nil]; omega
    have hacc : strlcat rcap (strlcat rcap d a) [10] = d ++ a ++ [10] := by
      rw [strlcat, strlcat, List.take_of_length_le h1, List.take_of_length_le h2]
    rw [List.foldl_cons, hacc, ih (d ++ a ++ [10]) h3]
    simp only [List.map_cons, List.flatten_cons, List.append_assoc]

theorem serializeRecovery_fits (rcap : Nat) (args : List (List Nat))
    (h : (wRecovery ++ 10 :: (args.map (fun a => a ++ [10])).flatten).length + 1 ≤ rcap) :
    serializeRecovery rcap args =
      wRecovery ++ 10 :: (args.map (fun a => a ++ [10])).flatten := by
  have h9 : (wRecovery ++ [10]).length ≤ rcap - 1 := by
    simp only [List.length_append, List.length_cons, List.length_nil, wRecovery] at h ⊢
    omega
  have h10 : ((wRecovery ++ [10]) ++ (args.map (fun a => a ++ [10])).flatten).length
      ≤ rcap - 1 := by
    simp only [List.length_append, List.length_cons, List.length_nil, wRecovery] at h ⊢
    omega
  rw [serializeRecovery, List.take_of_length_le h9, foldl_strlcat rcap args _ h10]
  simp

theorem get_args_eq_some (ccap rcap : Nat) (args0 : List (List Nat)) (boot : Bcb)
    (cmdfile : Option (List Nat)) (as : List (List Nat)) (b' : Bcb) :
    get_args ccap rcap args0 boot cmdfile = some (as, b') ↔
      resolveArgs rcap args0 boot cmdfile = some as ∧
        b' = writtenBcb ccap rcap boot.status as := by
  rw [get_args, Option.map_eq_some']
  constructor
  · rintro ⟨a, ha, he⟩
    have h1 : a = as := congrArg Prod.fst he
    have h2 : writtenBcb ccap rcap boot.status a = b' := congrArg Prod.snd he
    subst h1
    exact ⟨ha, h2.symm⟩
  · rintro ⟨ha, hb⟩
    exact ⟨as, ha, by rw [hb]⟩

theorem get_args_fst (ccap rcap : Nat) (args0 : List (List Nat)) (boot : Bcb)
    (cmdfile : Option (List Nat)) :
    (get_args ccap rcap args0 boot cmdfile).map Prod.fst =
      resolveArgs rcap args0 boot cmdfile := by
  rw [get_args, Option.map_map]
  cases resolveArgs rcap args0 boot cmdfile <;> rfl

theorem parseBcbArgs_eq_nil (rcap : Nat) (args0 : List (List Nat)) (raw : List Nat)
    (h : tokenize [10] (cstrField rcap raw) = []) :
    parseBcbArgs rcap args0 raw = args0 := by
  unfold parseBcbArgs
  rw [h]

theorem parseBcbArgs_eq_cons (rcap : Nat) (args0 : List (List Nat)) (raw : List Nat)
    (t : List Nat) (rest : List (List Nat))
    (h : tokenize [10] (cstrField rcap raw) = t :: rest) :
    parseBcbArgs rcap args0 raw =
      if t = wRecovery then t :: rest.take (MAX_ARGS - 1) else args0 := by
  unfold parseBcbArgs
  rw [h]

theorem parseBcbArgs_absent (rcap : Nat) (args0 : List (List Nat)) (raw : List Nat)
    (h : raw.headD 0 = 0 ∨ raw.headD 0 = 255) :
    parseBcbArgs rcap args0 raw = args0 := by
  match raw with
  | [] =>
    apply parseBcbArgs_eq_nil
    rw [cstrField, List.take_nil]
    rfl
  | c :: raw' =>
    rcases h with h | h <;> simp only [List.headD] at h <;> subst h
    · match hr : rcap - 1 with
      | 0 =>
        apply parseBcbArgs_eq_nil
        rw [cstrField, hr]
        rfl
      | n + 1 =>
        have hcs : cstrField rcap (0 :: raw') = [] := by
          rw [cstrField, hr, List.take_succ_cons, List.takeWhile_cons]
          simp
        apply parseBcbArgs_eq_nil
        rw [hcs]
        rfl
    · match hr : rcap - 1 with
      | 0 =>
        apply parseBcbArgs_eq_nil
        rw [cstrField, hr]
        rfl
      | n + 1 =>
        have hcs : cstrField rcap (255 :: raw') =
            255 :: (raw'.take n).takeWhile (fun c => ¬ c = 0) := by
          rw [cstrField, hr, List.take_succ_cons, List.takeWhile_cons]
          simp
        rw [parseBcbArgs_eq_cons rcap args0 (255 :: raw') _ _
            (by rw [hcs]; exact tokenize_cons_not_mem [10] 255 _ (by simp)),
          if_neg (by simp [wRecovery])]

theorem chunkLen_le (n : Nat) (s : List Nat) : chunkLen n s ≤ n - 1 := by
  rw [chunkLen]
  split
  · exact le_trans (Nat.succ_le_of_lt (by assumption)) (List.length_take_le _ _)
  · exact le_rfl

theorem fgets_eq_some (n : Nat) (s chunk rest : List Nat)
    (h : fgets n s = some (chunk, rest)) :
    chunk = s.take (chunkLen n s) ∧ rest = s.drop (chunkLen n s) := by
  match s with
  | [] => exact absurd h (by rw [fgets]; exact Option.noConfusion)
  | c :: t =>
    rw [fgets] at h
    have := Option.some.inj h
    exact ⟨(congrArg Prod.fst this).symm, (congrArg Prod.snd this).symm⟩

theorem fgets_chunk_length (n : Nat) (s chunk rest : List Nat)
    (h : fgets n s = some (chunk, rest)) : chunk.length ≤ n - 1 := by
  rw [(fgets_eq_some n s chunk rest h).1, List.length_take]
  exact le_trans (min_le_left _ _) (chunkLen_le n s)

theorem firstTok_length (delims s a : List Nat)
    (h : firstTok delims s = some a) : a.length ≤ s.length := by
  rw [firstTok] at h
  cases hd : s.dropWhile (fun c => c ∈ delims) with
  | nil => rw [hd] at h; exact absurd h Option.noConfusion
  | cons c t =>
    rw [hd] at h
    have ha : a = c :: t.takeWhile (fun d => ¬ d ∈ delims) := (Option.some.inj h).symm
    rw [ha]
    calc (c :: t.takeWhile (fun d => ¬ d ∈ delims)).length
        ≤ (c :: t).length := by
          simpa using Nat.succ_le_succ (List.takeWhile_sublist _).length_le
      _ = (s.dropWhile (fun c => c ∈ delims)).length := by rw [hd]
      _ ≤ s.length := (List.dropWhile_sublist _).length_le

theorem readCmdFile_bounds (fuel : Nat) :
    ∀ s ls, readCmdFile fuel s = some ls →
      ls.length ≤ fuel ∧ ∀ a ∈ ls, a.length ≤ MAX_ARG_LENGTH - 1 := by
  induction fuel with
  | zero =>
    intro s ls h
    rw [readCmdFile] at h
    have : ls = [] := (Option.some.inj h).symm
    subst this
    exact ⟨le_rfl, by simp⟩
  | succ k ih =>
    intro s ls h
    cases hf : fgets MAX_ARG_LENGTH s with
    | none =>
      rw [readCmdFile, hf] at h
      have h' : some ([] : List (List Nat)) = some ls := h
      have : ls = [] := (Option.some.inj h').symm
      subst this
      exact ⟨by simp, by simp⟩
    | some cr =>
      obtain ⟨chunk, rest⟩ := cr
      rw [readCmdFile, hf] at h
      have h' : (match firstTok [13, 10] (chunk.takeWhile (fun c => ¬ c = 0)) with
          | none => (none : Option (List (List Nat)))
          | some a => (readCmdFile k rest).map (fun ls => a :: ls)) = some ls := h
      cases ht : firstTok [13, 10] (chunk.takeWhile (fun c => ¬ c = 0)) with
      | none =>
        rw [ht] at h'
        have h2 : (none : Option (List (List Nat))) = some ls := h'
        exact absurd h2 Option.noConfusion
      | some a =>
        rw [ht] at h'
        have h2 : (readCmdFile k rest).map (fun ls => a :: ls) = some ls := h'
        rw [Option.map_eq_some'] at h2
        obtain ⟨ls', hls', heq⟩ := h2
        subst heq
        obtain ⟨h1, h2⟩ := ih rest ls' hls'
        refine ⟨by simpa using Nat.succ_le_succ h1, ?_⟩
        intro x hx
        rcases List.mem_cons.mp hx with rfl | hx
        · calc x.length ≤ (chunk.takeWhile (fun c => ¬ c = 0)).length :=
              firstTok_length _ _ _ ht
            _ ≤ chunk.length := (List.takeWhile_sublist _).length_le
            _ ≤ MAX_ARG_LENGTH - 1 := fgets_chunk_length _ _ _ _ hf
        · exact h2 x hx

/-! ### Computation lemmas for resolveArgs -/

theorem resolveArgs_invocation (rcap : Nat) (args0 : List (List Nat)) (boot : Bcb)
    (cmdfile : Option (List Nat)) (h : 2 ≤ args0.length) :
    resolveArgs rcap args0 boot cmdfile = some args0 := by
  have h2 : ¬ args0.length ≤ 1 := by omega
  simp only [resolveArgs, if_neg h2]

theorem resolveArgs_bcb (rcap : Nat) (p : List Nat) (boot : Bcb)
    (cmdfile : Option (List Nat)) (tailArgs : List (List Nat))
    (htok : tokenize [10] (cstrField rcap boot.recovery) = wRecovery :: tailArgs)
    (hlen : tailArgs.length ≤ MAX_ARGS - 1)
    (hne : ¬ tailArgs = []) :
    resolveArgs rcap [p] boot cmdfile = some (wRecovery :: tailArgs) := by
  have hA : (if ([p] : List (List Nat)).length ≤ 1
      then parseBcbArgs rcap [p] boot.recovery else [p]) = wRecovery :: tailArgs := by
    rw [if_pos (by simp), parseBcbArgs_eq_cons rcap [p] boot.recovery _ _ htok,
      if_pos rfl, List.take_of_length_le hlen]
  have hlen2 : ¬ (wRecovery :: tailArgs).length ≤ 1 := by
    cases tailArgs with
    | nil => exact absurd rfl hne
    | cons x xs => simp
  simp only [resolveArgs, hA]
  rw [if_neg hlen2]

theorem resolveArgs_tail_nil_cmdfile (rcap : Nat) (args0 : List (List Nat)) (boot : Bcb)
    (file : List Nat) (as : List (List Nat))
    (h : resolveArgs rcap args0 boot (some file) = some as) (ht : as.tail = []) :
    readCmdFile (MAX_ARGS - 1) file = some [] := by
  have hlen1 : as.length ≤ 1 := by
    cases as with
    | nil => simp
    | cons x xs => simp at ht; simp [ht]
  have h' : (if (if args0.length ≤ 1 then parseBcbArgs rcap args0 boot.recovery
        else args0).length ≤ 1
      then (readCmdFile (MAX_ARGS - 1) file).map
        (fun ls => (if args0.length ≤ 1 then parseBcbArgs rcap args0 boot.recovery
          else args0).headD [] :: ls)
      else some (if args0.length ≤ 1 then parseBcbArgs rcap args0 boot.recovery
        else args0)) = some as := h
  set A1 := if args0.length ≤ 1 then parseBcbArgs rcap args0 boot.recovery else args0 with hA1
  by_cases h1 : A1.length ≤ 1
  · rw [if_pos h1, Option.map_eq_some'] at h'
    obtain ⟨ls, hls, heq⟩ := h'
    have hnil : ls = [] := by
      rw [← heq] at ht
      simpa using ht
    rw [hnil] at hls
    exact hls
  · rw [if_neg h1] at h'
    have h2 := Option.some.inj h'
    rw [h2] at h1
    omega

theorem cstrField_full (rcap : Nat) (tailArgs : List (List Nat))
    (h0 : ∀ a ∈ tailArgs, ¬ (0 : Nat) ∈ a)
    (hfit : (wRecovery ++ 10 :: ((tailArgs.map (fun a => a ++ [10])).flatten)).length + 1 ≤ rcap) :
    cstrField rcap (wRecovery ++ 10 :: ((tailArgs.map (fun a => a ++ [10])).flatten)) =
      wRecovery ++ 10 :: ((tailArgs.map (fun a => a ++ [10])).flatten) := by
  rw [cstrField, List.take_of_length_le (by omega)]
  apply takeWhile_all
  intro c hc
  rw [decide_eq_true_eq]
  rcases List.mem_append.mp hc with hw | hrest
  · have hall : ∀ c ∈ wRecovery, ¬ c = 0 := by decide
    exact hall c hw
  · rcases List.mem_cons.mp hrest with rfl | hfl
    · omega
    · rcases List.mem_flatten.mp hfl with ⟨l, hl, hcl⟩
      rcases List.mem_map.mp hl with ⟨a, ha, rfl⟩
      rcases List.mem_append.mp hcl with hca | hc10
      · exact fun he => h0 a ha (he ▸ hca)
      · have : c = 10 := List.mem_singleton.mp hc10
        omega

theorem tokenize_full (tailArgs : List (List Nat))
    (hne : ∀ a ∈ tailArgs, ¬ a = []) (h10 : ∀ a ∈ tailArgs, ¬ (10 : Nat) ∈ a) :
    tokenize [10] (wRecovery ++ 10 :: ((tailArgs.map (fun a => a ++ [10])).flatten)) =
      wRecovery :: tailArgs := by
  rw [tokenize_token [10] wRecovery 10 _ (by decide) (by decide) (by decide),
    tokenize_flatten tailArgs hne h10]

theorem get_args_tails (ccap rcap : Nat) (args0 : List (List Nat)) (boot : Bcb)
    (cmdfile : Option (List Nat)) :
    (get_args ccap rcap args0 boot cmdfile).map (fun r => r.1.tail) =
      (resolveArgs rcap args0 boot cmdfile).map List.tail := by
  rw [get_args, Option.map_map]
  cases resolveArgs rcap args0 boot cmdfile <;> rfl

/-! ### The claims -/

/-- C1 (amended).  Round-trip durability of command resolution holds for
every Command whose post-placeholder arguments are nonempty, contain no
newline (byte 10) and no NUL (byte 0), number at most `MAX_ARGS` in total,
and whose serialization fits the `recovery` field capacity: re-reading the
record `get_args` wrote and resolving again with empty invocation
arguments (and the same command-file state) reproduces the arguments
after the placeholder.  (As stated — for *every* Command, including the
placeholder entry — the claim fails: see the counterexample.) -/
theorem c1_roundtrip_durability (ccap rcap : Nat) (p : List Nat)
    (args0 : List (List Nat)) (boot : Bcb) (cmdfile : Option (List Nat))
    (as : List (List Nat)) (b' : Bcb)
    (h : get_args ccap rcap args0 boot cmdfile = some (as, b'))
    (hne : ∀ a ∈ as.tail, ¬ a = [])
    (h10 : ∀ a ∈ as.tail, ¬ (10 : Nat) ∈ a)
    (h0 : ∀ a ∈ as.tail, ¬ (0 : Nat) ∈ a)
    (hcount : as.length ≤ MAX_ARGS)
    (hfit : (wRecovery ++ 10 :: ((as.tail.map (fun a => a ++ [10])).flatten)).length + 1 ≤ rcap) :
    (get_args ccap rcap [p] b' cmdfile).map (fun r => r.1.tail) = some as.tail := by
  rw [get_args_eq_some] at h
  obtain ⟨hres, hb⟩ := h
  have hrec : b'.recovery = wRecovery ++ 10 :: ((as.tail.map (fun a => a ++ [10])).flatten) := by
    rw [hb]
    show serializeRecovery rcap as.tail = _
    exact serializeRecovery_fits rcap as.tail hfit
  have htok : tokenize [10] (cstrField rcap b'.recovery) = wRecovery :: as.tail := by
    rw [hrec, cstrField_full rcap as.tail h0 hfit, tokenize_full as.tail hne h10]
  by_cases hT : as.tail = []
  · rw [hT] at htok
    have hA : (if ([p] : List (List Nat)).length ≤ 1
        then parseBcbArgs rcap [p] b'.recovery else [p]) = [wRecovery] := by
      rw [if_pos (by simp), parseBcbArgs_eq_cons rcap [p] b'.recovery _ _ htok, if_pos rfl]
      rfl
    rw [get_args_tails, hT]
    cases cmdfile with
    | none =>
      have hr2 : resolveArgs rcap [p] b' none = some [wRecovery] := by
        simp only [resolveArgs, hA]
        rw [if_pos (by simp)]
      rw [hr2]
      rfl
    | some file =>
      have hread : readCmdFile (MAX_ARGS - 1) file = some [] :=
        resolveArgs_tail_nil_cmdfile rcap args0 boot file as hres hT
      have hr2 : resolveArgs rcap [p] b' (some file) = some [wRecovery] := by
        simp only [resolveArgs, hA]
        rw [if_pos (by simp)]
        show (readCmdFile (MAX_ARGS - 1) file).map
          (fun ls => ([wRecovery] : List (List Nat)).headD [] :: ls) = some [wRecovery]
        rw [hread]
        rfl
      rw [hr2]
      rfl
  · have hlenT : as.tail.length ≤ MAX_ARGS - 1 := by
      cases as with
      | nil => simp [MAX_ARGS]
      | cons y ys => simp [MAX_ARGS] at hcount ⊢; omega
    rw [get_args_tails, resolveArgs_bcb rcap p b' cmdfile as.tail htok hlenT hT]
    rfl

/-- C2.  Resolver commit side effect: whenever `get_args` returns (on any
source branch), the record it passed to `set_bootloader_message` has
`command = "boot-recovery"` and `recovery = "recovery\n"` followed by each
post-placeholder argument terminated by a newline — provided the
`command` capacity holds the 13-byte string and the serialization fits
the `recovery` capacity (the source's `strlcpy`/`strlcat` truncate
otherwise). -/
theorem c2_commit_side_effect (ccap rcap : Nat) (args0 : List (List Nat)) (boot : Bcb)
    (cmdfile : Option (List Nat)) (as : List (List Nat)) (b' : Bcb)
    (h : get_args ccap rcap args0 boot cmdfile = some (as, b'))
    (hccap : 14 ≤ ccap)
    (hfit : (wRecovery ++ 10 :: ((as.tail.map (fun a => a ++ [10])).flatten)).length + 1 ≤ rcap) :
    b'.command = wBootRecovery ∧
      b'.recovery = wRecovery ++ 10 :: ((as.tail.map (fun a => a ++ [10])).flatten) := by
  rw [get_args_eq_some] at h
  obtain ⟨hres, hb⟩ := h
  constructor
  · rw [hb]
    show wBootRecovery.take (ccap - 1) = wBootRecovery
    refine List.take_of_length_le ?_
    rw [wBootRecovery]
    simp only [List.length_cons, List.length_nil]
    omega
  · rw [hb]
    show serializeRecovery rcap as.tail = _
    exact serializeRecovery_fits rcap as.tail hfit

/-- C3.  Resolution precedence: with invocation arguments beyond the
placeholder present, `get_args` returns exactly the invocation argument
list, whatever the record's `recovery` field and the command file hold. -/
theorem c3_precedence (ccap rcap : Nat) (args0 : List (List Nat)) (boot : Bcb)
    (cmdfile : Option (List Nat)) (h : 2 ≤ args0.length) :
    (get_args ccap rcap args0 boot cmdfile).map Prod.fst = some args0 := by
  rw [get_args_fst, resolveArgs_invocation rcap args0 boot cmdfile h]

/-- C4.  The finalizer clears persisted intent: whenever the cache volume
is mountable, `finish_recovery` leaves the BCB all-zero (it zeroes it
unconditionally), leaves no command file, and the removal step reports
success even when the command file was already absent (the ENOENT branch
at recovery.c line 268 is treated as success). -/
theorem c4_finalizer_clears (intent : Option (List Nat)) (w : World)
    (h : w.cacheOk = true) :
    (finish_recovery intent w).1.boot = ⟨[], [], []⟩ ∧
      (finish_recovery intent w).1.commandFile = none ∧
      (finish_recovery intent w).2 = true := by
  cases intent <;> simp [finish_recovery, h]

/-- C5.  Finalizer idempotence: for every intent argument and every
starting state, running `finish_recovery` twice in the same process is
the very same outcome as running it once — the record, the intent file,
the command file, the persistent log, and the process-global
`tmplog_offset` all coincide, because the offset advanced to the end of
the temporary log on the first call, so the second call appends
nothing. -/
theorem c5_finalizer_idempotent (intent : Option (List Nat)) (w : World) :
    finish_recovery intent (finish_recovery intent w).1 = finish_recovery intent w := by
  cases intent <;> cases hc : w.cacheOk <;>
    simp [finish_recovery, hc,
      List.drop_eq_nil_of_le (le_max_right w.tmplogOffset w.tmplog.length),
      Nat.max_eq_left (le_max_right w.tmplogOffset w.tmplog.length)]

/-- C6.  Erase ordering, independence and outcome: with both wipe flags
set, the dispatch of `main` calls `erase_root` on "DATA:" then on
"CACHE:" — the cache erase appears in the trace whatever the data erase
returned — and the session status is success exactly when both erases
succeeded. -/
theorem c6_erase_order_independence (wd wc installOk : Bool) (eraseOk : List Nat → Bool)
    (hw : wd = true) (hc : wc = true) :
    mainDispatch none wd wc installOk eraseOk =
        (eraseOk wDATA && eraseOk wCACHE, [wDATA, wCACHE]) ∧
      ((mainDispatch none wd wc installOk eraseOk).1 = true ↔
        eraseOk wDATA = true ∧ eraseOk wCACHE = true) := by
  subst hw
  subst hc
  constructor
  · simp [mainDispatch]
  · simp [mainDispatch, Bool.and_eq_true]

/-- C7.  No-op routing: with no package locator and no wipe flag, the
dispatch of `main` performs no erase and yields the non-success status,
upon which the control flow shows the error background and enters
`prompt_and_wait()` rather than proceeding to the reboot path. -/
theorem c7_noop_routing (pkg : Option (List Nat)) (wd wc installOk : Bool)
    (eraseOk : List Nat → Bool)
    (hp : pkg = none) (hw : wd = false) (hc : wc = false) :
    mainDispatch pkg wd wc installOk eraseOk = (false, []) ∧
      routeAfter (mainDispatch pkg wd wc installOk eraseOk).1 =
        (true, NextStep.prompting) := by
  subst hp
  subst hw
  subst hc
  constructor
  · simp [mainDispatch]
  · simp [mainDispatch, routeAfter]

/-- C8.  Absent-field convention: a `recovery` field whose first raw byte
is 0x00 or 0xFF contributes no arguments — with empty invocation
arguments and no command file the resolved Command is the placeholder
alone — and the resolved Command never depends on the `command` and
`status` fields at all. -/
theorem c8_absent_fields (ccap rcap : Nat) (p : List Nat) (boot : Bcb)
    (h : boot.recovery.headD 0 = 0 ∨ boot.recovery.headD 0 = 255) :
    (get_args ccap rcap [p] boot none).map Prod.fst = some [p] ∧
      ∀ c s args0 cmdfile,
        (get_args ccap rcap args0
            { command := c, status := s, recovery := boot.recovery } cmdfile).map Prod.fst =
          (get_args ccap rcap args0 boot cmdfile).map Prod.fst := by
  constructor
  · rw [get_args_fst]
    have hA : (if ([p] : List (List Nat)).length ≤ 1
        then parseBcbArgs rcap [p] boot.recovery else [p]) = [p] := by
      rw [if_pos (by simp), parseBcbArgs_absent rcap [p] boot.recovery h]
    simp only [resolveArgs, hA]
    rw [if_pos (by simp)]
  · intro c s args0 cmdfile
    rw [get_args_fst, get_args_fst]
    rfl

/-- C9.  The claim "resolution is total" fails on the code: a readable
command file consisting of a single empty line makes the loop at
recovery.c line 201 execute `strdup(strtok(buf, "\r\n"))` with
`strtok` returning NULL, so `strdup` dereferences a null pointer and the
process crashes instead of returning a Command (modelled as `none`).
Input: empty invocation arguments, zeroed BCB, command file "\n". -/
theorem c9_empty_line_crash :
    get_args 32 1024 [wRecovery] ⟨[], [], []⟩ (some [10]) = none := by
  rfl

/-- C10 (amended).  Over-long command-file lines are not rejected and
cannot overflow: whenever resolution from a command file returns (empty
invocation arguments, zeroed BCB), the resolved Command has at most
`MAX_ARGS` entries and every post-placeholder argument is at most
`MAX_ARG_LENGTH - 1` bytes.  An over-long line is *split* at the buffer
bound into consecutive arguments rather than truncated to one argument,
and no warning is logged (see the counterexample for the claim as
stated). -/
theorem c10_command_file_bounds (ccap rcap : Nat) (p : List Nat) (file : List Nat)
    (as : List (List Nat)) (b' : Bcb)
    (h : get_args ccap rcap [p] ⟨[], [], []⟩ (some file) = some (as, b')) :
    as.length ≤ MAX_ARGS ∧ ∀ a ∈ as.tail, a.length ≤ MAX_ARG_LENGTH - 1 := by
  rw [get_args_eq_some] at h
  obtain ⟨hres, _⟩ := h
  have h2 : (if (if ([p] : List (List Nat)).length ≤ 1
        then parseBcbArgs rcap [p] [] else [p]).length ≤ 1
      then (readCmdFile (MAX_ARGS - 1) file).map
        (fun ls => (if ([p] : List (List Nat)).length ≤ 1
          then parseBcbArgs rcap [p] [] else [p]).headD [] :: ls)
      else some (if ([p] : List (List Nat)).length ≤ 1
        then parseBcbArgs rcap [p] [] else [p])) = some as := hres
  have hA : (if ([p] : List (List Nat)).length ≤ 1
      then parseBcbArgs rcap [p] [] else [p]) = [p] := by
    rw [if_pos (by simp)]
    exact parseBcbArgs_absent rcap [p] [] (Or.inl rfl)
  simp only [hA] at h2
  rw [if_pos (by simp), Option.map_eq_some'] at h2
  obtain ⟨ls, hls, heq⟩ := h2
  obtain ⟨hl1, hl2⟩ := readCmdFile_bounds (MAX_ARGS - 1) file ls hls
  constructor
  · rw [← heq]
    simp only [List.length_cons, MAX_ARGS] at hl1 ⊢
    omega
  · intro a ha
    rw [← heq] at ha
    simp only [List.tail_cons] at ha
    exact hl2 a ha

theorem findIdx_all_false (p : Nat → Bool) (l : List Nat)
    (h : ∀ c ∈ l, p c = false) : l.findIdx p = l.length := by
  induction l with
  | nil => rfl
  | cons c t ih =>
    rw [List.findIdx_cons, h c (List.mem_cons_self c t)]
    simp only [cond_false, List.length_cons]
    rw [ih fun x hx => h x (List.mem_cons_of_mem c hx)]

theorem dropWhile_false (p : Nat → Bool) (l : List Nat)
    (h : ∀ c ∈ l, p c = false) : l.dropWhile p = l := by
  cases l with
  | nil => rfl
  | cons c t => rw [List.dropWhile_cons, h c (List.mem_cons_self c t)]; simp

theorem readCmdFile_step (k : Nat) (s chunk rest a : List Nat)
    (hf : fgets MAX_ARG_LENGTH s = some (chunk, rest))
    (ht : firstTok [13, 10] (chunk.takeWhile (fun c => ¬ c = 0)) = some a) :
    readCmdFile (k + 1) s = (readCmdFile k rest).map (fun ls => a :: ls) := by
  rw [readCmdFile, hf]
  show (match firstTok [13, 10] (chunk.takeWhile (fun c => ¬ c = 0)) with
    | none => (none : Option (List (List Nat)))
    | some a => (readCmdFile k rest).map (fun ls => a :: ls)) = _
  rw [ht]

theorem resolveArgs_cmdfile (rcap : Nat) (p : List Nat) (boot : Bcb)
    (file : List Nat) (ls : List (List Nat))
    (habsent : parseBcbArgs rcap [p] boot.recovery = [p])
    (hread : readCmdFile (MAX_ARGS - 1) file = some ls) :
    resolveArgs rcap [p] boot (some file) = some (p :: ls) := by
  have hA : (if ([p] : List (List Nat)).length ≤ 1
      then parseBcbArgs rcap [p] boot.recovery else [p]) = [p] := by
    rw [if_pos (by simp), habsent]
  simp only [resolveArgs, hA]
  rw [if_pos (by simp), hread]
  rfl

theorem fgets_long_line :
    fgets MAX_ARG_LENGTH (List.replicate 4096 97 ++ [10]) =
      some (List.replicate 4095 97, [97, 10]) := by
  have htake : (List.replicate 4096 97 ++ [10]).take 4095 = List.replicate 4095 97 := by
    rw [List.take_append_of_le_length (by rw [List.length_replicate]; omega),
      List.take_replicate]
    norm_num
  have htakeM : (List.replicate 4096 97 ++ [10]).take (MAX_ARG_LENGTH - 1) =
      List.replicate 4095 97 := by
    rw [show MAX_ARG_LENGTH - 1 = 4095 from rfl]
    exact htake
  have hchunk : chunkLen MAX_ARG_LENGTH (List.replicate 4096 97 ++ [10]) = 4095 := by
    rw [chunkLen, htakeM,
      findIdx_all_false _ _ (fun c hc => by rw [List.eq_of_mem_replicate hc]; rfl),
      List.length_replicate, if_neg (by omega)]
    rfl
  have hdrop : (List.replicate 4096 97 ++ [10]).drop 4095 = [97, 10] := by
    rw [List.drop_append_of_le_length (by rw [List.length_replicate]; omega),
      List.drop_replicate]
    rfl
  have hs : List.replicate 4096 97 ++ [10] = 97 :: (List.replicate 4095 97 ++ [10]) := by
    rw [show (4096 : Nat) = 4095 + 1 from rfl, List.replicate_succ, List.cons_append]
  conv_lhs => rw [hs]
  rw [fgets, ← hs, hchunk, htake, hdrop]

theorem firstTok_long_line :
    firstTok [13, 10] ((List.replicate 4095 97).takeWhile (fun c => ¬ c = 0)) =
      some (List.replicate 4095 97) := by
  have htw : (List.replicate 4095 (97 : Nat)).takeWhile (fun c => ¬ c = 0) =
      List.replicate 4095 97 :=
    takeWhile_all _ _ (fun c hc => by rw [List.eq_of_mem_replicate hc]; rfl)
  have hd : (List.replicate 4095 (97 : Nat)).dropWhile (fun c => c ∈ [13, 10]) =
      List.replicate 4095 97 :=
    dropWhile_false _ _ (fun c hc => by rw [List.eq_of_mem_replicate hc]; rfl)
  have hrep : List.replicate 4095 (97 : Nat) = 97 :: List.replicate 4094 97 := by
    rw [show (4095 : Nat) = 4094 + 1 from rfl, List.replicate_succ]
  have htw2 : (List.replicate 4094 (97 : Nat)).takeWhile (fun d => ¬ d ∈ [13, 10]) =
      List.replicate 4094 97 :=
    takeWhile_all _ _ (fun c hc => by rw [List.eq_of_mem_replicate hc]; rfl)
  rw [htw, firstTok, hd, hrep]
  show some (97 :: (List.replicate 4094 (97 : Nat)).takeWhile (fun d => ¬ d ∈ [13, 10])) = _
  rw [htw2]

/-- C10, the claim as stated is false: the command file holding the
single 4096-byte line "aaaa…a\n" resolves to a Command with TWO arguments
after the placeholder — the first 4095 bytes and then the leftover "a" —
not to one argument truncated to the bound. -/
theorem c10_truncation_cex :
    (get_args 32 1024 [wRecovery] ⟨[], [], []⟩
        (some (List.replicate 4096 97 ++ [10]))).map Prod.fst =
      some [wRecovery, List.replicate 4095 97, [97]] ∧
    ¬ (get_args 32 1024 [wRecovery] ⟨[], [], []⟩
        (some (List.replicate 4096 97 ++ [10]))).map Prod.fst =
      some [wRecovery, List.replicate 4095 97] := by
  have hstep1 : readCmdFile (MAX_ARGS - 1) (List.replicate 4096 97 ++ [10]) =
      (readCmdFile 98 [97, 10]).map (fun ls => List.replicate 4095 97 :: ls) :=
    readCmdFile_step 98 _ _ _ _ fgets_long_line firstTok_long_line
  have hstep2 : readCmdFile 98 [97, 10] =
      (readCmdFile 97 []).map (fun ls => [97] :: ls) :=
    readCmdFile_step 97 _ _ _ _ (by rfl) (by rfl)
  have hread : readCmdFile (MAX_ARGS - 1) (List.replicate 4096 97 ++ [10]) =
      some [List.replicate 4095 97, [97]] := by
    rw [hstep1, hstep2]
    rfl
  have hres : resolveArgs 1024 [wRecovery] ⟨[], [], []⟩
      (some (List.replicate 4096 97 ++ [10])) =
      some [wRecovery, List.replicate 4095 97, [97]] :=
    resolveArgs_cmdfile 1024 wRecovery ⟨[], [], []⟩ _ _
      (parseBcbArgs_absent 1024 [wRecovery] _ (Or.inl rfl)) hread
  have h1 : (get_args 32 1024 [wRecovery] ⟨[], [], []⟩
      (some (List.replicate 4096 97 ++ [10]))).map Prod.fst =
      some [wRecovery, List.replicate 4095 97, [97]] := by
    rw [get_args_fst, hres]
  refine ⟨h1, fun hcontra => ?_⟩
  rw [h1] at hcontra
  have h2 := Option.some.inj hcontra
  have hlen := congrArg List.length h2
  simp only [List.length_cons, List.length_nil] at hlen
  omega

/-- C1, the claim as stated is false: the Command
`["recovery", ""]` (an empty invocation argument beyond the placeholder)
is resolved verbatim by branch 1, but the write-back serializes it to
`"recovery\n\n"`, and `strtok` skips the empty line on re-resolution, so
the re-resolved Command is `["recovery"]`, not the original. -/
theorem c1_roundtrip_cex :
    get_args 32 1024 [wRecovery, []] ⟨[], [], []⟩ none =
        some ([wRecovery, []],
          { command := wBootRecovery, status := [], recovery := wRecovery ++ [10, 10] }) ∧
      (get_args 32 1024 [wRecovery]
          { command := wBootRecovery, status := [], recovery := wRecovery ++ [10, 10] }
          none).map Prod.fst = some [wRecovery] ∧
      ¬ ([wRecovery] : List (List Nat)) = [wRecovery, []] := by
  refine ⟨by rfl, by rfl, by simp⟩

/-! ### Witnesses -/

theorem c1_roundtrip_witness :
    get_args 32 1024 [wRecovery, [97]] ⟨[], [], []⟩ none =
        some ([wRecovery, [97]],
          { command := wBootRecovery, status := [], recovery := wRecovery ++ [10, 97, 10] }) ∧
      (get_args 32 1024 [wRecovery]
          { command := wBootRecovery, status := [], recovery := wRecovery ++ [10, 97, 10] }
          none).map (fun r => r.1.tail) = some [[97]] :=
  ⟨by rfl,
    c1_roundtrip_durability 32 1024 wRecovery [wRecovery, [97]] ⟨[], [], []⟩ none
      [wRecovery, [97]]
      { command := wBootRecovery, status := [], recovery := wRecovery ++ [10, 97, 10] }
      (by rfl) (by decide) (by decide) (by decide) (by decide) (by decide)⟩

theorem c2_commit_witness :
    get_args 32 1024 [wRecovery, [97]] ⟨[], [], []⟩ none =
        some ([wRecovery, [97]],
          { command := wBootRecovery, status := [], recovery := wRecovery ++ [10, 97, 10] }) ∧
      ((⟨wBootRecovery, [], wRecovery ++ [10, 97, 10]⟩ : Bcb).command = wBootRecovery ∧
        (⟨wBootRecovery, [], wRecovery ++ [10, 97, 10]⟩ : Bcb).recovery =
          wRecovery ++ 10 :: (([[97]].map (fun a => a ++ [10])).flatten)) :=
  ⟨by rfl,
    c2_commit_side_effect 32 1024 [wRecovery, [97]] ⟨[], [], []⟩ none [wRecovery, [97]]
      ⟨wBootRecovery, [], wRecovery ++ [10, 97, 10]⟩ (by rfl) (by decide) (by decide)⟩

theorem c3_precedence_witness :
    2 ≤ ([wRecovery, [97]] : List (List Nat)).length ∧
      (get_args 32 1024 [wRecovery, [97]] ⟨[], [], wRecovery ++ [10, 98, 10]⟩
          (some [99, 10])).map Prod.fst = some [wRecovery, [97]] :=
  ⟨by decide,
    c3_precedence 32 1024 [wRecovery, [97]] ⟨[], [], wRecovery ++ [10, 98, 10]⟩
      (some [99, 10]) (by decide)⟩

theorem c4_finalizer_witness :
    (⟨true, none, [5], [7, 8], 1, some [3], ⟨[1], [2], [3]⟩⟩ : World).cacheOk = true ∧
      ((finish_recovery none ⟨true, none, [5], [7, 8], 1, some [3], ⟨[1], [2], [3]⟩⟩).1.boot
          = ⟨[], [], []⟩ ∧
        (finish_recovery none
            ⟨true, none, [5], [7, 8], 1, some [3], ⟨[1], [2], [3]⟩⟩).1.commandFile = none ∧
        (finish_recovery none ⟨true, none, [5], [7, 8], 1, some [3], ⟨[1], [2], [3]⟩⟩).2
          = true) :=
  ⟨rfl,
    c4_finalizer_clears none ⟨true, none, [5], [7, 8], 1, some [3], ⟨[1], [2], [3]⟩⟩ rfl⟩

theorem c6_erase_witness :
    (true = true ∧ true = true) ∧
      (mainDispatch none true true false (fun r => decide (r = wCACHE)) =
          (decide (wDATA = wCACHE) && decide (wCACHE = wCACHE), [wDATA, wCACHE]) ∧
        ((mainDispatch none true true false (fun r => decide (r = wCACHE))).1 = true ↔
          decide (wDATA = wCACHE) = true ∧ decide (wCACHE = wCACHE) = true)) :=
  ⟨⟨rfl, rfl⟩,
    c6_erase_order_independence true true false (fun r => decide (r = wCACHE)) rfl rfl⟩

theorem c7_noop_witness :
    ((none : Option (List Nat)) = none ∧ false = false ∧ false = false) ∧
      (mainDispatch none false false true (fun _ => true) = (false, []) ∧
        routeAfter (mainDispatch none false false true (fun _ => true)).1 =
          (true, NextStep.prompting)) :=
  ⟨⟨rfl, rfl, rfl⟩, c7_noop_routing none false false true (fun _ => true) rfl rfl rfl⟩

theorem c8_absent_witness :
    ((List.replicate 1024 255).headD 0 = 0 ∨ (List.replicate 1024 255).headD 0 = 255) ∧
      (get_args 32 1024 [wRecovery] ⟨[1], [2], List.replicate 1024 255⟩ none).map Prod.fst =
        some [wRecovery] :=
  ⟨Or.inr (by decide),
    (c8_absent_fields 32 1024 wRecovery ⟨[1], [2], List.replicate 1024 255⟩
      (Or.inr (by decide))).1⟩

theorem c10_bounds_witness :
    get_args 32 1024 [wRecovery] ⟨[], [], []⟩ (some [97, 10]) =
        some ([wRecovery, [97]],
          { command := wBootRecovery, status := [], recovery := wRecovery ++ [10, 97, 10] }) ∧
      ([wRecovery, [97]] : List (List Nat)).length ≤ MAX_ARGS :=
  ⟨by rfl,
    (c10_command_file_bounds 32 1024 wRecovery [97, 10] [wRecovery, [97]]
      ⟨wBootRecovery, [], wRecovery ++ [10, 97, 10]⟩ (by rfl)).1⟩
